import Mathlib

/-!
Verification development for the recipe-crawler repository
(`recipe_crawler.py`): a shallow embedding of the URL classifier, the
per-site crawler (frontier management, page scraping, recipe dedup) and
the multi-site scheduler (`MultiCrawler`), together with theorems about
the behaviour of these functions.

External library functions used by the source (`urllib.parse`, the robots
parser, `requests`, the extraction libraries) are modelled explicitly:
URL splitting/joining is given as executable functions mirroring
`urllib.parse` on the hierarchical `http(s)` URLs this program works
with, and the network, the robots policy and the random generator are
oracles packaged in an `Env` value.
-/

namespace RecipeCrawler

/-! ### Strings and URLs

`strStartsWith s p` models Python's `s.startswith(p)`. -/

def strStartsWith (s p : String) : Bool :=
  p.toList.isPrefixOf s.toList

/-- `URLTest.is_absolute_url` from the source: a "simplistic test",
`url.startswith(("http://", "https://"))`. -/
def is_absolute_url (url : String) : Bool :=
  strStartsWith url "http://" || strStartsWith url "https://"

/-- Characters allowed in a URL scheme after the first (alphabetic) one,
as recognised by `urllib.parse.urlsplit`. -/
def isSchemeChar (c : Char) : Bool :=
  c.isAlphanum || c = '+' || c = '-' || c = '.'

/-- Split off a `scheme:` head of a URL, modelling the scheme recognition
of `urllib.parse.urlsplit`: the part before the first `':'` must be a
non-empty run of scheme characters starting with a letter.  Returns
`some (scheme, rest)` on success. -/
def schemeSplit (s : String) : Option (String × String) :=
  let cs := s.toList
  let pre := cs.takeWhile (fun c => c ≠ ':')
  if pre.length < cs.length then
    match pre with
    | [] => none
    | c :: rest =>
      if c.isAlpha && rest.all isSchemeChar then
        some (String.mk pre, String.mk (cs.drop (pre.length + 1)))
      else none
  else none

/-- Characters that terminate the authority component of a URL. -/
def endsNetloc (c : Char) : Bool :=
  c = '/' || c = '?' || c = '#'

/-- The authority (netloc) of a URL, modelling
`urllib.parse.urlsplit(url).netloc` for hierarchical URLs: the text
after a leading `scheme://` or a leading `//`, up to the first `/`,
`?` or `#`; empty when the URL carries no `//`. -/
def netloc (s : String) : String :=
  let r := match schemeSplit s with
    | some (_, rest) => rest
    | none => s
  if strStartsWith r "//" then
    String.mk ((r.toList.drop 2).takeWhile (fun c => !endsNetloc c))
  else ""

/-- Python's `str.lower` on the ASCII strings handled here, written over
the character list so that it evaluates by kernel reduction. -/
def strToLower (s : String) : String :=
  String.mk (s.toList.map Char.toLower)

/-- `URLTest.is_same_domain` from the source: case-insensitive equality of
the netlocs of the base URL and the candidate URL. -/
def is_same_domain (baseurl url : String) : Bool :=
  strToLower (netloc baseurl) == strToLower (netloc url)

/-- The path-query-fragment part of a hierarchical URL that follows its
authority (used for relative-reference resolution). -/
def afterNetloc (s : String) : String :=
  let r := match schemeSplit s with
    | some (_, rest) => rest
    | none => s
  if strStartsWith r "//" then
    String.mk ((r.toList.drop 2).dropWhile (fun c => !endsNetloc c))
  else r

/-- Everything up to and including the last `'/'` of a string (the empty
string when there is no `'/'`): the base-path part that a relative
reference is appended to, per RFC 3986 path merging. -/
def upToLastSlash (p : String) : String :=
  String.mk (((p.toList.reverse).dropWhile (fun c => c ≠ '/')).reverse)

/-- Model of `urllib.parse.urljoin(base, url)` for the URLs this crawler
handles: hierarchical `http(s)`-style base URLs and references without
dot segments.  An empty reference yields the base; a reference with its
own scheme stands alone; a protocol-relative `//host/...` reference
takes the base's scheme; a root-relative `/...` reference replaces the
base's path; any other reference is merged onto the base path with the
segment after its last `/` dropped.  (Dot-segment normalisation and the
same-scheme relative quirk of `urllib` are not modelled; nothing below
exercises them.) -/
def urljoin (base url : String) : String :=
  if url = "" then base
  else
    match schemeSplit url with
    | some _ => url
    | none =>
      match schemeSplit base with
      | none => url
      | some (bscheme, brest) =>
        if strStartsWith url "//" then bscheme ++ ":" ++ url
        else if strStartsWith brest "//" then
          let bnet := String.mk ((brest.toList.drop 2).takeWhile (fun c => !endsNetloc c))
          let bpath := String.mk ((brest.toList.drop 2).dropWhile (fun c => !endsNetloc c))
          if strStartsWith url "/" then bscheme ++ "://" ++ bnet ++ url
          else
            let merged := upToLastSlash bpath
            bscheme ++ "://" ++ bnet ++ (if merged = "" then "/" else merged) ++ url
        else url

/-! ### Data model -/

/-- A recipe record (`schema.org/Recipe` dictionary) restricted to the
attributes the crawler itself reads or writes; every field is optional,
mirroring `dict.get` semantics. -/
structure Recipe where
  url : Option String
  name : Option String
  recipeInstructions : Option (List String)
  recipeIngredient : Option (List String)
  license : Option String
deriving DecidableEq, Repr

/-- What one fetched page yields to the crawler: the recipe records the
extraction library finds in its body, the hrefs of its anchors (`none`
for an `<a>` without an `href` attribute), and the response URL. -/
structure Page where
  recipes : List Recipe
  anchors : List (Option String)
  respUrl : String
deriving DecidableEq, Repr

/-- The oracles around the crawler: the robots policy (a per-agent-name,
per-URL permission predicate, as `reppy`'s `robots.agent(name).allowed`),
the network (URL to fetched page) and the random generator
(`randint` draws, indexed by scheduler step and by draw within a step). -/
structure Env where
  allowed : String → String → Bool
  fetch : String → Page
  rands : Nat → Nat → Nat

/-- The mutable state of one `Crawler` instance: its configuration
attributes plus the two-tier frontier, the ledger of accepted recipes and
the visited list.  (`html_pages` and the download counters play no part
in any claim and are omitted.) -/
structure CrawlerSt where
  base_url : String
  recipe_url : String
  license : String
  url_list_high : List String
  url_list_low : List String
  recipe_json : List Recipe
  been_there_urls : List String
deriving DecidableEq, Repr

/-- `Crawler.__init__`: the high tier is seeded with `start_url` when that
is truthy, else with `url`; a `None` recipe-url becomes `""`; the license
is kept only when present, not `"proprietary"` (case-insensitively) and
an absolute URL. -/
def Crawler.init (url : String) (recipe_url license : Option String)
    (start_url : String) : CrawlerSt :=
  { base_url := url
    recipe_url := match recipe_url with
      | none => ""
      | some r => r
    license := match license with
      | none => ""
      | some l => if strToLower l ≠ "proprietary" ∧ is_absolute_url l then l else ""
    url_list_high := [if start_url ≠ "" then start_url else url]
    url_list_low := []
    recipe_json := []
    been_there_urls := [] }

/-! ### The URL classifier (`Crawler._rank_url`) -/

/-- The tail of `Crawler._rank_url` after a candidate has been resolved to
an absolute URL: visited check, robots check (the crawler queries the
policy it obtained for agent `"*"`), recipe-prefix check. -/
def rankResolved (env : Env) (st : CrawlerSt) (url : String) : Int × Option String :=
  if url ∈ st.been_there_urls then (-4, some url)
  else if env.allowed "*" url = false then (-5, some url)
  else if st.recipe_url ≠ "" ∧ strStartsWith url st.recipe_url then (1, some url)
  else (0, some url)

/-- `Crawler._rank_url`: score a candidate href.  `none` models a
non-string argument (e.g. an anchor without an href). -/
def rank_url (env : Env) (st : CrawlerSt) (url? : Option String) : Int × Option String :=
  match url? with
  | none => (-1, none)
  | some url =>
    if strStartsWith url "#" || strStartsWith url "javascript:" || strStartsWith url "mailto:" then
      (-2, some url)
    else if is_absolute_url url then
      if is_same_domain st.base_url url = false then (-3, some url)
      else rankResolved env st url
    else rankResolved env st (urljoin st.base_url url)

/-! ### Frontier expansion (`Crawler._mine_anchors`) -/

/-- Process one anchor href: rank it, then append the resolved URL to the
high tier on score `1` or to the low tier on score `0` — in each case only
when the URL is not already in that tier; any other score skips the URL. -/
def mineOne (env : Env) (st : CrawlerSt) (href : Option String) : CrawlerSt :=
  match rank_url env st href with
  | (score, some url) =>
    if score = 1 then
      if url ∉ st.url_list_high then
        { st with url_list_high := st.url_list_high ++ [url] }
      else st
    else if score = 0 then
      if url ∉ st.url_list_low then
        { st with url_list_low := st.url_list_low ++ [url] }
      else st
    else st
  | (_, none) => st

/-- `Crawler._mine_anchors`: rank every anchor of the page in order and
place the admissible ones into the frontier tiers. -/
def mine_anchors (env : Env) (st : CrawlerSt) (anchors : List (Option String)) : CrawlerSt :=
  anchors.foldl (mineOne env) st

/-! ### URL selection (`Crawler._download_page`) -/

/-- The `while not url` selection loop of `_download_page`: pop the last
element of the high tier; when the high tier is empty, remove the element
of the low tier at a `randint(0, len-1)` position; when both are empty the
anchor lists are exhausted (`none`).  A popped falsy (empty) string makes
the loop pick again.  `rand k` is the value of the `k`-th `randint` call
of this invocation; the fuel argument only bounds the retries on empty
strings — each iteration shrinks the tiers, so fuel
`high.length + low.length + 1` is never exhausted. -/
def pickUrl (rand : Nat → Nat) :
    Nat → Nat → List String → List String → List String × List String × Option String
  | 0, _, high, low => (high, low, none)
  | fuel + 1, k, high, low =>
    if h : high = [] then
      if h2 : low = [] then (high, low, none)
      else
        let r := rand k % low.length
        let url := low.get ⟨r, Nat.mod_lt _ (List.length_pos.mpr h2)⟩
        let low' := low.eraseIdx r
        if url = "" then pickUrl rand fuel (k + 1) high low'
        else (high, low', some url)
    else
      let url := high.getLast h
      let high' := high.dropLast
      if url = "" then pickUrl rand fuel k high' low
      else (high', low, some url)

/-- `Crawler._download_page`: select a URL from the frontier, record it in
the visited list, and fetch it.  `none` models the
`AnchorListsEmptyError` raise (no URL recorded, no fetch). -/
def download_page (env : Env) (rand : Nat → Nat) (st : CrawlerSt) :
    CrawlerSt × Option (String × Page) :=
  match pickUrl rand (st.url_list_high.length + st.url_list_low.length + 1) 0
      st.url_list_high st.url_list_low with
  | (h', l', none) =>
    ({ st with url_list_high := h', url_list_low := l' }, none)
  | (h', l', some url) =>
    ({ st with
        url_list_high := h'
        url_list_low := l'
        been_there_urls := st.been_there_urls ++ [url] },
      some (url, env.fetch url))

/-! ### Page scraping (`Crawler._scrape_page`) -/

/-- The three shapes `_scrape_page` can return: `None`, a single recipe
dictionary, or a list of several recipes. -/
inductive Scraped where
  | nothing : Scraped
  | one : Recipe → Scraped
  | many : List Recipe → Scraped
deriving DecidableEq, Repr

/-- `Crawler._scrape_page`: run the extraction library on the body; with
exactly one recipe, fill in the source URL and the crawler's license when
those are absent and return the single record; with several, return the
list; with none, return `None`. -/
def scrape_page (st : CrawlerSt) (page : Page) : Scraped :=
  match page.recipes with
  | [] => Scraped.nothing
  | [r0] =>
    let r1 := if r0.url = none then { r0 with url := some page.respUrl } else r0
    let r2 := if st.license ≠ "" ∧ r1.license = none then
        { r1 with license := some st.license }
      else r1
    Scraped.one r2
  | rs => Scraped.many rs

/-! ### Dedup (`Crawler._has_similar_recipe`) -/

/-- The per-entry similarity test of `_has_similar_recipe`: equal source
URLs, or equal name, instruction list and ingredient list. -/
def similarRecipe (r recipe : Recipe) : Bool :=
  r.url == recipe.url ||
    (r.name == recipe.name && r.recipeInstructions == recipe.recipeInstructions
      && r.recipeIngredient == recipe.recipeIngredient)

/-- The `for i in range(len(...))` search of `_has_similar_recipe`,
carrying the index of the entry under inspection. -/
def hasSimilarAux (recipe : Recipe) : List Recipe → Nat → Int
  | [], _ => -1
  | r :: rs, i => if similarRecipe r recipe then (i : Int) else hasSimilarAux recipe rs (i + 1)

/-- `Crawler._has_similar_recipe`: the index of the first ledger entry
similar to the new record, `-1` when there is none. -/
def has_similar_recipe (ledger : List Recipe) (recipe : Recipe) : Int :=
  hasSimilarAux recipe ledger 0

/-! ### One crawl step (`Crawler.crawl`) -/

/-- The two exceptions a crawl step can raise: `AnchorListsEmptyError`
(both frontier tiers empty) and the fatal raise on a page with several
recipes (`raise NotImplemented(...)`, which aborts the run). -/
inductive CrawlErr where
  | anchorsEmpty : CrawlErr
  | multipleRecipes : CrawlErr
deriving DecidableEq, Repr

/-- `Crawler.crawl`: download one page, scrape it, mine its anchors, then
record the scraped recipe in the ledger unless a similar one is already
there.  Returns the post-state together with the recipe count (`.ok`) or
the raised exception (`.error`); the post-state of an exceptional return
is the object state at the moment of the raise. -/
def crawl (env : Env) (rand : Nat → Nat) (st : CrawlerSt) :
    CrawlerSt × Except CrawlErr Nat :=
  match download_page env rand st with
  | (st1, none) => (st1, Except.error CrawlErr.anchorsEmpty)
  | (st1, some (_, page)) =>
    let scrapings := scrape_page st1 page
    let st2 := mine_anchors env st1 page.anchors
    match scrapings with
    | Scraped.nothing => (st2, Except.ok 0)
    | Scraped.one r =>
      if has_similar_recipe st2.recipe_json r = -1 then
        ({ st2 with recipe_json := st2.recipe_json ++ [r] }, Except.ok 1)
      else (st2, Except.ok 0)
    | Scraped.many _ => (st2, Except.error CrawlErr.multipleRecipes)

/-! ### The multi-site scheduler (`MultiCrawler`) -/

/-- `MultiCrawler`'s state: the recipe target, the global counter, the
active rotation (registration order), the retired crawlers, the position
of the `cycle` iterator over the active list, and the number of `crawl`
calls made so far (which indexes the random oracle). -/
structure MCState where
  recipe_limit : Nat
  num_recipes : Nat
  crawlers : List CrawlerSt
  inactive_crawler : List CrawlerSt
  cyclePos : Nat
  steps : Nat
deriving Repr

/-- The state of a `MultiCrawler(limit)` after registering the given
crawlers with `add_crawler` (which leaves the fresh `cycle` iterator at
the head of the list). -/
def MCState.register (limit : Nat) (cs : List CrawlerSt) : MCState :=
  { recipe_limit := limit
    num_recipes := 0
    crawlers := cs
    inactive_crawler := []
    cyclePos := 0
    steps := 0 }

/-- `MultiCrawler.remove_crawler`, on the active list: pop the first
crawler whose `base_url` equals the argument and return it with the
remaining list; `none` models the `return False` path (no match). -/
def remove_crawler : List CrawlerSt → String → Option (List CrawlerSt × CrawlerSt)
  | [], _ => none
  | c :: cs, b =>
    if c.base_url = b then some (cs, c)
    else
      match remove_crawler cs b with
      | some (cs', r) => some (c :: cs', r)
      | none => none

/-- The ways `MultiCrawler.run` can terminate abnormally:
`emptyRotation` models the `StopIteration` escaping from
`next(cycle([]))` once the active list is empty (or the `AttributeError`
when no crawler was ever registered), `fatalRemove` the
`RuntimeError("Fatal error removing crawler.")`, and `multipleRecipes`
the uncaught raise from `Crawler.crawl` on a page with several
recipes. -/
inductive RunErr where
  | emptyRotation : RunErr
  | fatalRemove : RunErr
  | multipleRecipes : RunErr
deriving DecidableEq, Repr

/-- One iteration of the loop body of `MultiCrawler.run` (entered after
the loop condition held): take the next crawler from the cycle, call
`crawl` on it, and either add its count to the global counter or — on
`AnchorListsEmptyError` — retire it via `remove_crawler`; the crawler
object is mutated in place, so the retirement search runs over the list
holding the post-`crawl` crawler.  Any other exception propagates. -/
def runBody (env : Env) (st : MCState) : Except RunErr MCState :=
  if h : st.crawlers = [] then Except.error RunErr.emptyRotation
  else
    let i := st.cyclePos % st.crawlers.length
    let c := st.crawlers.get ⟨i, Nat.mod_lt _ (List.length_pos.mpr h)⟩
    let res := crawl env (env.rands st.steps) c
    let crawlers1 := st.crawlers.set i res.1
    match res.2 with
    | Except.ok k =>
      Except.ok { st with
        num_recipes := st.num_recipes + k
        crawlers := crawlers1
        cyclePos := st.cyclePos + 1
        steps := st.steps + 1 }
    | Except.error CrawlErr.anchorsEmpty =>
      match remove_crawler crawlers1 res.1.base_url with
      | some (cs', r) =>
        Except.ok { st with
          crawlers := cs'
          inactive_crawler := st.inactive_crawler ++ [r]
          cyclePos := 0
          steps := st.steps + 1 }
      | none => Except.error RunErr.fatalRemove
    | Except.error CrawlErr.multipleRecipes => Except.error RunErr.multipleRecipes

/-- `MultiCrawler.run`, fuel-bounded: while
`num_recipes < recipe_limit or len(crawlers) < 1` holds, execute the loop
body.  `some (.ok st)` is the normal return, `some (.error e)` an escaped
exception, `none` means the fuel ran out with the loop still going. -/
def runAux (env : Env) : Nat → MCState → Option (Except RunErr MCState)
  | 0, _ => none
  | fuel + 1, st =>
    if st.num_recipes < st.recipe_limit ∨ st.crawlers.length < 1 then
      match runBody env st with
      | Except.ok st' => runAux env fuel st'
      | Except.error e => some (Except.error e)
    else some (Except.ok st)

/-- `MultiCrawler.results_dict`: concatenate the ledgers of the crawlers
in the active list. -/
def results_dict (st : MCState) : List Recipe :=
  st.crawlers.foldl (fun ret c => ret ++ c.recipe_json) []

/-! ### The classifier decisions, and the spec's rule cascade -/

/-- The three decisions of the spec's URL-classifier contract. -/
inductive Decision where
  | Reject : Decision
  | Low : Decision
  | High : Decision
deriving DecidableEq, Repr

/-- The decision a `_rank_url` score amounts to, as consumed by
`_mine_anchors`: score `1` feeds the high tier, score `0` the low tier,
everything else is skipped. -/
def decisionOf (r : Int × Option String) : Decision :=
  if r.1 = 1 then Decision.High
  else if r.1 = 0 then Decision.Low
  else Decision.Reject

/-- The absolute URL a candidate href resolves to in `_rank_url` (the raw
href when it passes `is_absolute_url`, else its join with the base). -/
def resolveHref (st : CrawlerSt) (url : String) : String :=
  if is_absolute_url url then url else urljoin st.base_url url

/-- The spec's classifier rule cascade (first match wins), amended to the
source's behaviour in the two places the spec deviates: only a non-string
input falls under rule 1 (an empty string href is treated as a relative
reference, resolving to the base URL), and the robots rule queries the
policy for the wildcard agent `"*"`, not for the crawler's own
user-agent name. -/
def classifySpec (env : Env) (st : CrawlerSt) (href : Option String) : Decision :=
  match href with
  | none => Decision.Reject
  | some url =>
    if strStartsWith url "#" || strStartsWith url "javascript:" || strStartsWith url "mailto:" then
      Decision.Reject
    else if is_absolute_url url ∧ is_same_domain st.base_url url = false then
      Decision.Reject
    else if resolveHref st url ∈ st.been_there_urls then Decision.Reject
    else if env.allowed "*" (resolveHref st url) = false then Decision.Reject
    else if st.recipe_url ≠ "" ∧ strStartsWith (resolveHref st url) st.recipe_url then
      Decision.High
    else Decision.Low

/-! ### Frontier invariant and reachable crawler states -/

/-- A URL hits a configured recipe-path stem `ru`: `_rank_url` gives it
score `1` (when otherwise admissible) exactly under this condition. -/
def stemHit (ru u : String) : Prop :=
  ru ≠ "" ∧ strStartsWith u ru = true

/-- `stemHit` at a crawler's own configured stem. -/
def hitsRecipeStem (st : CrawlerSt) (u : String) : Prop :=
  stemHit st.recipe_url u

/-- The frontier invariant of claim C5: the two tiers are duplicate-free,
share no URL, and avoid every visited URL. -/
def FrontierOk (st : CrawlerSt) : Prop :=
  st.url_list_high.Nodup ∧ st.url_list_low.Nodup ∧
    (∀ u ∈ st.url_list_high, u ∉ st.url_list_low) ∧
    (∀ u ∈ st.url_list_high, u ∉ st.been_there_urls) ∧
    (∀ u ∈ st.url_list_low, u ∉ st.been_there_urls)

/-- The inductive strengthening of `FrontierOk` that the crawl step
preserves: additionally, nothing in the low tier hits the recipe stem,
and the high tier either consists of recipe-stem URLs only or is still
the untouched initial seed (nothing visited yet, at most one entry). -/
def FrontierInv (st : CrawlerSt) : Prop :=
  FrontierOk st ∧
    (∀ u ∈ st.url_list_low, ¬ hitsRecipeStem st u) ∧
    ((∀ u ∈ st.url_list_high, hitsRecipeStem st u) ∨
      (st.been_there_urls = [] ∧ st.url_list_high.length ≤ 1))

/-- The crawler states the program can put a `Crawler` object into: the
freshly constructed state, and the state after any further `crawl` call
(whether that call returned a count or raised). -/
inductive ReachableCrawler (env : Env) : CrawlerSt → Prop where
  | init (url : String) (recipe_url license : Option String) (start_url : String) :
      ReachableCrawler env (Crawler.init url recipe_url license start_url)
  | step (st : CrawlerSt) (rand : Nat → Nat) :
      ReachableCrawler env st → ReachableCrawler env (crawl env rand st).1

/-! ### Scheduler counter invariant -/

/-- The sum of the ledger lengths of a list of crawlers. -/
def sumLedgers (cs : List CrawlerSt) : Nat :=
  (cs.map (fun c => c.recipe_json.length)).sum

/-- Claim C8's invariant: the global counter equals the sum of the ledger
lengths over all crawlers, active and retired. -/
def CounterOk (st : MCState) : Prop :=
  st.num_recipes = sumLedgers st.crawlers + sumLedgers st.inactive_crawler

/-! ### Concrete fixtures -/

/-- A recipe record served by site `a.com` in the concrete runs. -/
def recA : Recipe :=
  ⟨some "http://a.com/", some "Apple pie", some ["bake"], some ["apples"], none⟩

/-- A recipe record served by site `b.com` in the concrete runs. -/
def recB : Recipe :=
  ⟨some "http://b.com/p2", some "Borscht", some ["boil"], some ["beets"], none⟩

/-- The network of the two-site concrete run: `a.com` serves one recipe
and no links; `b.com`'s front page has no recipe and one relative link
`p2`; that page serves one recipe and no links. -/
def fetchTwoSites : String → Page := fun u =>
  if u = "http://a.com/" then ⟨[recA], [], u⟩
  else if u = "http://b.com/" then ⟨[], [some "p2"], u⟩
  else if u = "http://b.com/p2" then ⟨[recB], [], u⟩
  else ⟨[], [], u⟩

/-- Environment of the two-site concrete run: robots allow everything,
every `randint` draw is `0`. -/
def envTwoSites : Env :=
  ⟨fun _ _ => true, fetchTwoSites, fun _ _ => 0⟩

/-- The crawler registered for `a.com`. -/
def crawlerA : CrawlerSt := Crawler.init "http://a.com/" none none ""

/-- The crawler registered for `b.com`. -/
def crawlerB : CrawlerSt := Crawler.init "http://b.com/" none none ""

/-- The two-site scheduler, target 2: site `a.com` yields one recipe and
then exhausts (and is retired) before `b.com` finds its second recipe, so
the run ends normally with `a.com` retired and its ledger non-empty. -/
def stTwoSites : MCState := MCState.register 2 [crawlerA, crawlerB]

/-- A registered crawler whose frontier is already exhausted. -/
def emptyCrawler : CrawlerSt :=
  ⟨"http://a.com/", "", "", [], [], [], []⟩

/-- Scheduler with recipe target 5 and the single `emptyCrawler`
registered: its first tick retires the only crawler, emptying the
rotation far short of the target. -/
def stOneEmpty : MCState := MCState.register 5 [emptyCrawler]

/-- A crawler for `www.example.com` with no recipe-path stem configured. -/
def exampleCrawler : CrawlerSt :=
  Crawler.init "https://www.example.com/" none none ""

/-- A robots policy that forbids everything to the crawler's identifying
agent name `RecipeCrawlerPY` but allows everything to the wildcard agent;
network and randomness are inert. -/
def envAgentSpecific : Env :=
  ⟨fun agent _ => agent ≠ "RecipeCrawlerPY", fun u => ⟨[], [], u⟩, fun _ _ => 0⟩

/-- Two crawlers sharing one base URL, distinguishable by their seeds. -/
def dupCrawlerOne : CrawlerSt :=
  Crawler.init "http://a.com/" none none "http://a.com/one"

/-- Second crawler registered with the same base URL as `dupCrawlerOne`. -/
def dupCrawlerTwo : CrawlerSt :=
  Crawler.init "http://a.com/" none none "http://a.com/two"

/-- Projection of a `run` outcome: the `results_dict` of a normal
return. -/
def finalResults : Option (Except RunErr MCState) → Option (List Recipe)
  | some (Except.ok st) => some (results_dict st)
  | _ => none

/-- Projection of a `run` outcome: the ledgers of the retired crawlers of
a normal return. -/
def finalInactiveLedgers : Option (Except RunErr MCState) → Option (List (List Recipe))
  | some (Except.ok st) => some (st.inactive_crawler.map (fun c => c.recipe_json))
  | _ => none

/-- Projection of a `run` outcome: the exception of an abnormal return. -/
def finalError : Option (Except RunErr MCState) → Option RunErr
  | some (Except.error e) => some e
  | _ => none

/-- An environment whose every page carries two recipe records: the
unsupported multiple-recipes-on-one-page condition. -/
def envMultiRecipe : Env :=
  ⟨fun _ _ => true, fun u => ⟨[recA, recB], [], u⟩, fun _ _ => 0⟩

/-! ## Theorems -/

/-- Claim C1 (code bug): `run()` returns normally only in states where
the recipe target is met AND the rotation is non-empty — the loop
condition `num_recipes < recipe_limit or len(crawlers) < 1` can only turn
false that way.  When the rotation empties instead (here: target 5, one
registered crawler whose frontier is exhausted, retired on the first
tick), the loop does not exit as the claim (and the source's own loop
comment) states: the condition stays true, the next iteration selects a
crawler from the empty cycle, and the run aborts with an escaped
`StopIteration` instead of returning normally. -/
theorem c1_empty_rotation_aborts_run :
    (∀ (env : Env) (fuel : Nat) (st st' : MCState),
      runAux env fuel st = some (Except.ok st') →
      st'.recipe_limit ≤ st'.num_recipes ∧ st'.crawlers ≠ []) ∧
    finalError (runAux envTwoSites 3 stOneEmpty) = some RunErr.emptyRotation ∧
    finalResults (runAux envTwoSites 3 stOneEmpty) = none := by
  refine ⟨?_, rfl, rfl⟩
  intro env fuel
  induction fuel with
  | zero => intro st st' h; cases h
  | succ n ih =>
    intro st st' h
    unfold runAux at h
    split_ifs at h with hcond
    · cases hb : runBody env st with
      | ok st1 => rw [hb] at h; exact ih st1 st' h
      | error e => rw [hb] at h; cases h
    · cases h
      have h2 := not_or.mp hcond
      exact ⟨by omega, List.length_pos.mp (by omega)⟩

/-- Witness for C1's normal-exit characterization: the completed two-site
run ends with the counter at its target of 2 and one crawler still in
rotation. -/
theorem c1_witness :
    ({ recipe_limit := 2
       num_recipes := 2
       crawlers := [⟨"http://b.com/", "", "", [], [], [recB],
         ["http://b.com/", "http://b.com/p2"]⟩]
       inactive_crawler := [⟨"http://a.com/", "", "", [], [], [recA], ["http://a.com/"]⟩]
       cyclePos := 1
       steps := 4 } : MCState).recipe_limit ≤
      ({ recipe_limit := 2
         num_recipes := 2
         crawlers := [⟨"http://b.com/", "", "", [], [], [recB],
           ["http://b.com/", "http://b.com/p2"]⟩]
         inactive_crawler := [⟨"http://a.com/", "", "", [], [], [recA], ["http://a.com/"]⟩]
         cyclePos := 1
         steps := 4 } : MCState).num_recipes ∧
    ({ recipe_limit := 2
       num_recipes := 2
       crawlers := [⟨"http://b.com/", "", "", [], [], [recB],
         ["http://b.com/", "http://b.com/p2"]⟩]
       inactive_crawler := [⟨"http://a.com/", "", "", [], [], [recA], ["http://a.com/"]⟩]
       cyclePos := 1
       steps := 4 } : MCState).crawlers ≠ [] :=
  c1_empty_rotation_aborts_run.1 envTwoSites 10 stTwoSites _ (by rfl)

/-- Claim C2, counterexample: a completed run (target 2) in which site
`a.com` collected `recA` and then retired while site `b.com` collected
`recB`.  The claim says `results()` is the concatenation of the ledgers
of ALL registered sites, i.e. `[recA, recB]`; the code's `results_dict`
returns only the active crawlers' ledgers, `[recB]`, and `recA` survives
only inside the retired crawler. -/
theorem c2_counterexample :
    finalResults (runAux envTwoSites 10 stTwoSites) = some [recB] ∧
    finalInactiveLedgers (runAux envTwoSites 10 stTwoSites) = some [[recA]] ∧
    finalResults (runAux envTwoSites 10 stTwoSites) ≠ some [recA, recB] := by
  refine ⟨rfl, rfl, ?_⟩
  decide

/-- Claim C3, counterexample: two concrete inputs on which the claimed
rule cascade disagrees with `_rank_url`.  (1) the empty href: the claim's
rule 1 demands Reject, but the code classifies it Low, resolving it to
the base URL itself; (2) a robots policy that forbids everything to the
crawler's identifying agent name `RecipeCrawlerPY` while allowing the
wildcard agent: the claim's rule 5 demands Reject, but the code asks the
policy for agent `"*"` and classifies the URL Low. -/
theorem c3_counterexample :
    decisionOf (rank_url envTwoSites exampleCrawler (some "")) = Decision.Low ∧
    (rank_url envTwoSites exampleCrawler (some "")).2 = some "https://www.example.com/" ∧
    envAgentSpecific.allowed "RecipeCrawlerPY" "https://www.example.com/about" = false ∧
    decisionOf (rank_url envAgentSpecific exampleCrawler (some "/about")) = Decision.Low := by
  refine ⟨rfl, rfl, rfl, rfl⟩

/-- Claim C9: the off-domain rejection is bypassed by the
protocol-relative href `//other.example.org/page` against base
`https://www.example.com/`: the absolute-URL test returns false, so the
same-domain check is skipped; the href resolves to
`https://other.example.org/page`, whose authority differs from the
base's; the classifier returns Low (score 0) rather than Reject, and
`_mine_anchors` inserts the off-domain URL into the low tier of the
frontier. -/
theorem c9_protocol_relative_bypass :
    is_absolute_url "//other.example.org/page" = false ∧
    urljoin "https://www.example.com/" "//other.example.org/page" =
      "https://other.example.org/page" ∧
    is_same_domain "https://www.example.com/" "https://other.example.org/page" = false ∧
    rank_url envTwoSites exampleCrawler (some "//other.example.org/page") =
      (0, some "https://other.example.org/page") ∧
    (mine_anchors envTwoSites exampleCrawler [some "//other.example.org/page"]).url_list_low
      = ["https://other.example.org/page"] := by
  refine ⟨rfl, by decide, by decide, by decide, by decide⟩

/-- Claim C3, amended: for every candidate href and crawler state, the
decision `_rank_url`'s score amounts to equals the spec's rule cascade
with the two amendments forced by the counterexample — rule 1 covers only
non-string input (an empty href is resolved like any relative reference),
and rule 5 consults the robots policy for the wildcard agent `"*"` rather
than the crawler's identifying agent name.  All other rules, their order,
and first-match-wins semantics are as claimed. -/
theorem c3_rank_follows_amended_rules (env : Env) (st : CrawlerSt) (href? : Option String) :
    decisionOf (rank_url env st href?) = classifySpec env st href? := by
  cases href? with
  | none => rfl
  | some url =>
    simp only [rank_url, classifySpec, rankResolved, decisionOf, resolveHref]
    split_ifs <;> simp_all

/-- Claim C4: in a crawl step whose frontier tiers contain no empty
string (every reachable frontier consists of resolved non-empty URLs),
the URL to fetch is chosen as claimed: a non-empty high tier has its
most-recently-added (last) element popped; otherwise a non-empty low tier
has the element at the `randint(0, len-1)` position removed; in both
cases the chosen URL is appended to the visited list in the state the
fetch acts on; and with both tiers empty the step raises
`AnchorListsEmptyError` (no count is returned). -/
theorem c4_fetch_selection (env : Env) (rand : Nat → Nat) (st : CrawlerSt)
    (hh : "" ∉ st.url_list_high) (hl : "" ∉ st.url_list_low) :
    (∀ h : st.url_list_high ≠ [],
      download_page env rand st =
        ({ st with
            url_list_high := st.url_list_high.dropLast
            been_there_urls := st.been_there_urls ++ [st.url_list_high.getLast h] },
          some (st.url_list_high.getLast h, env.fetch (st.url_list_high.getLast h)))) ∧
    (st.url_list_high = [] → ∀ h2 : st.url_list_low ≠ [],
      download_page env rand st =
        ({ st with
            url_list_low := st.url_list_low.eraseIdx (rand 0 % st.url_list_low.length)
            been_there_urls := st.been_there_urls ++
              [st.url_list_low.get ⟨rand 0 % st.url_list_low.length,
                Nat.mod_lt _ (List.length_pos.mpr h2)⟩] },
          some (st.url_list_low.get ⟨rand 0 % st.url_list_low.length,
                Nat.mod_lt _ (List.length_pos.mpr h2)⟩,
            env.fetch (st.url_list_low.get ⟨rand 0 % st.url_list_low.length,
                Nat.mod_lt _ (List.length_pos.mpr h2)⟩)))) ∧
    (st.url_list_high = [] → st.url_list_low = [] →
      crawl env rand st = (st, Except.error CrawlErr.anchorsEmpty)) := by
  obtain ⟨b, ru, lic, hi, lo, rj, bt⟩ := st
  simp only at hh hl
  refine ⟨?_, ?_, ?_⟩
  · intro h
    simp only at h
    have hlast : hi.getLast h ≠ "" := by
      intro he; exact hh (he ▸ List.getLast_mem h)
    unfold download_page
    simp only [pickUrl, dif_neg h, if_neg hlast]
  · intro h h2
    simp only at h h2
    subst h
    have hget : lo.get ⟨rand 0 % lo.length, Nat.mod_lt _ (List.length_pos.mpr h2)⟩ ≠ "" := by
      intro he; exact hl (he ▸ List.get_mem _ _ _)
    unfold download_page
    simp only [pickUrl, List.length_nil, dif_neg h2, if_neg hget, Nat.zero_add, dite_true]
  · intro h h2
    simp only at h h2
    subst h; subst h2
    unfold crawl download_page
    simp only [pickUrl, dite_true]

/-- Witness for C4: the fresh `www.example.com` crawler has the seed as
the sole (and hence most recently added) high-tier entry; its first step
pops it, visits it and fetches it. -/
theorem c4_witness :
    download_page envTwoSites (fun _ => 0) exampleCrawler =
      ({ exampleCrawler with
          url_list_high := exampleCrawler.url_list_high.dropLast
          been_there_urls := exampleCrawler.been_there_urls ++
            [exampleCrawler.url_list_high.getLast (by decide)] },
        some (exampleCrawler.url_list_high.getLast (by decide),
          envTwoSites.fetch (exampleCrawler.url_list_high.getLast (by decide)))) :=
  (c4_fetch_selection envTwoSites (fun _ => 0) exampleCrawler (by decide) (by decide)).1
    (by decide)

/-- The index search of `_has_similar_recipe` reports a hit exactly when
some ledger entry passes the similarity test, whatever the start index. -/
theorem hasSimilarAux_ne_neg_one (r : Recipe) :
    ∀ (l : List Recipe) (i : Nat),
      hasSimilarAux r l i ≠ -1 ↔ ∃ e ∈ l, similarRecipe e r = true := by
  intro l
  induction l with
  | nil => intro i; simp [hasSimilarAux]
  | cons a rest ih =>
    intro i
    cases h : similarRecipe a r with
    | true =>
      simp only [hasSimilarAux, h, if_true]
      constructor
      · intro _; exact ⟨a, List.mem_cons_self a rest, h⟩
      · intro _; omega
    | false =>
      simp only [hasSimilarAux, h, Bool.false_eq_true, if_false]
      rw [ih (i + 1)]
      constructor
      · rintro ⟨e, he, hs⟩; exact ⟨e, List.mem_cons_of_mem a he, hs⟩
      · rintro ⟨e, he, hs⟩
        rcases List.mem_cons.mp he with rfl | he'
        · rw [hs] at h; cases h
        · exact ⟨e, he', hs⟩

/-- Claim C6: a new record is judged a duplicate (the similarity search
returns an index other than `-1`, so `crawl` discards the record) exactly
when some existing ledger entry has an equal source URL, or equal name,
instruction list and ingredient list; in particular equal `url` fields
alone suffice, as do equal name+instructions+ingredients under different
`url`s. -/
theorem c6_duplicate_iff (ledger : List Recipe) (r : Recipe) :
    has_similar_recipe ledger r ≠ -1 ↔
      ∃ e ∈ ledger, e.url = r.url ∨
        (e.name = r.name ∧ e.recipeInstructions = r.recipeInstructions ∧
          e.recipeIngredient = r.recipeIngredient) := by
  rw [has_similar_recipe, hasSimilarAux_ne_neg_one]
  simp only [similarRecipe, Bool.or_eq_true, Bool.and_eq_true, beq_iff_eq, and_assoc]

/-- A page carrying at least two recipe records falls into the
several-recipes branch of `_scrape_page`. -/
theorem scrape_many_of_two (st : CrawlerSt) (page : Page) (h : 2 ≤ page.recipes.length) :
    scrape_page st page = Scraped.many page.recipes := by
  unfold scrape_page
  match hp : page.recipes with
  | [] => rw [hp] at h; simp at h
  | [r0] => rw [hp] at h; simp at h
  | a :: b :: rest => rfl

/-- Claim C7: a crawl step that returns normally returns a count of 0 or
1; when the fetched page yields two or more recipe records, the step does
not return a count but raises the fatal multiple-recipes error; and the
scheduler's loop does not catch that error — `run` aborts with it. -/
theorem c7_multiple_recipes_fatal :
    (∀ (env : Env) (rand : Nat → Nat) (st st' : CrawlerSt) (k : Nat),
      crawl env rand st = (st', Except.ok k) → k = 0 ∨ k = 1) ∧
    (∀ (env : Env) (rand : Nat → Nat) (st st1 : CrawlerSt) (url : String) (page : Page),
      download_page env rand st = (st1, some (url, page)) →
      2 ≤ page.recipes.length →
      (crawl env rand st).2 = Except.error CrawlErr.multipleRecipes) ∧
    (∀ (env : Env) (fuel : Nat) (st : MCState),
      (st.num_recipes < st.recipe_limit ∨ st.crawlers.length < 1) →
      runBody env st = Except.error RunErr.multipleRecipes →
      runAux env (fuel + 1) st = some (Except.error RunErr.multipleRecipes)) := by
  refine ⟨?_, ?_, ?_⟩
  · intro env rand st st' k h
    unfold crawl at h
    split at h
    · cases h
    · dsimp only at h
      split at h
      · cases h; left; rfl
      · split at h
        · cases h; right; rfl
        · cases h; left; rfl
      · cases h
  · intro env rand st st1 url page hdp hlen
    unfold crawl
    rw [hdp]
    dsimp only
    rw [scrape_many_of_two st1 page hlen]
  · intro env fuel st hcond hbody
    unfold runAux
    rw [if_pos hcond, hbody]

/-- Witness for C7: against the two-recipes-per-page network, the fresh
`www.example.com` crawler's first step raises the fatal
multiple-recipes error. -/
theorem c7_witness :
    (crawl envMultiRecipe (fun _ => 0) exampleCrawler).2 =
      Except.error CrawlErr.multipleRecipes :=
  c7_multiple_recipes_fatal.2.1 envMultiRecipe (fun _ => 0) exampleCrawler
    ({ exampleCrawler with
        url_list_high := []
        been_there_urls := ["https://www.example.com/"] })
    "https://www.example.com/" ⟨[recA, recB], [], "https://www.example.com/"⟩
    (by decide) (by decide)

/-- `_mine_anchors` on a single href touches only the frontier tiers. -/
theorem mineOne_immutable (env : Env) (st : CrawlerSt) (href : Option String) :
    (mineOne env st href).base_url = st.base_url ∧
    (mineOne env st href).recipe_url = st.recipe_url ∧
    (mineOne env st href).recipe_json = st.recipe_json ∧
    (mineOne env st href).been_there_urls = st.been_there_urls := by
  unfold mineOne
  split
  · split_ifs <;> simp
  · simp

/-- `_mine_anchors` touches only the frontier tiers. -/
theorem mine_anchors_immutable (env : Env) :
    ∀ (anchors : List (Option String)) (st : CrawlerSt),
    (mine_anchors env st anchors).base_url = st.base_url ∧
    (mine_anchors env st anchors).recipe_url = st.recipe_url ∧
    (mine_anchors env st anchors).recipe_json = st.recipe_json ∧
    (mine_anchors env st anchors).been_there_urls = st.been_there_urls := by
  intro anchors
  induction anchors with
  | nil => intro st; simp [mine_anchors]
  | cons a rest ih =>
    intro st
    have h1 := mineOne_immutable env st a
    have h2 := ih (mineOne env st a)
    simp only [mine_anchors, List.foldl_cons] at *
    exact ⟨h2.1.trans h1.1, (h2.2.1.trans h1.2.1),
      (h2.2.2.1.trans h1.2.2.1), (h2.2.2.2.trans h1.2.2.2)⟩

/-- `_download_page` touches neither the site configuration nor the
ledger. -/
theorem download_page_immutable (env : Env) (rand : Nat → Nat) (st : CrawlerSt) :
    (download_page env rand st).1.base_url = st.base_url ∧
    (download_page env rand st).1.recipe_url = st.recipe_url ∧
    (download_page env rand st).1.recipe_json = st.recipe_json := by
  unfold download_page
  split <;> simp

/-- A crawl step grows the ledger by exactly the count it returns (and by
nothing when it raises), and never changes the base URL. -/
theorem crawl_ledger (env : Env) (rand : Nat → Nat) (st : CrawlerSt) :
    (crawl env rand st).1.recipe_json.length =
      st.recipe_json.length +
        (match (crawl env rand st).2 with
          | Except.ok k => k
          | Except.error _ => 0) ∧
    (crawl env rand st).1.base_url = st.base_url := by
  have hdl := download_page_immutable env rand st
  unfold crawl
  cases hdp : download_page env rand st with
  | mk st1 o =>
    rw [hdp] at hdl
    simp only at hdl
    cases o with
    | none => simp [hdl.1, hdl.2.2]
    | some up =>
      obtain ⟨url, page⟩ := up
      have hm := mine_anchors_immutable env page.anchors st1
      dsimp only
      split
      · simp [hm.1, hm.2.2.1, hdl.1, hdl.2.2]
      · split_ifs <;> simp [hm.1, hm.2.2.1, hdl.1, hdl.2.2]
      · simp [hm.1, hm.2.2.1, hdl.1, hdl.2.2]

theorem sumLedgers_append (xs ys : List CrawlerSt) :
    sumLedgers (xs ++ ys) = sumLedgers xs + sumLedgers ys := by
  simp [sumLedgers]

theorem sumLedgers_set :
    ∀ (cs : List CrawlerSt) (i : Nat) (c' : CrawlerSt) (h : i < cs.length),
      sumLedgers (cs.set i c') + (cs.get ⟨i, h⟩).recipe_json.length =
        sumLedgers cs + c'.recipe_json.length := by
  intro cs
  induction cs with
  | nil => intro i c' h; simp at h
  | cons a rest ih =>
    intro i c' h
    cases i with
    | zero => simp [sumLedgers]; omega
    | succ j =>
      simp only [List.set, sumLedgers, List.map_cons, List.sum_cons, List.get] at *
      have := ih j c' (by simpa using Nat.lt_of_succ_lt_succ h)
      simp only [sumLedgers] at this
      omega

/-- Retiring a crawler moves its ledger out of the active sum intact. -/
theorem remove_crawler_sum :
    ∀ (cs : List CrawlerSt) (b : String) (cs' : List CrawlerSt) (r : CrawlerSt),
      remove_crawler cs b = some (cs', r) →
      sumLedgers cs' + r.recipe_json.length = sumLedgers cs := by
  intro cs
  induction cs with
  | nil => intro b cs' r h; simp [remove_crawler] at h
  | cons a rest ih =>
    intro b cs' r h
    unfold remove_crawler at h
    split_ifs at h with hb
    · cases h; simp [sumLedgers]; omega
    · cases hrec : remove_crawler rest b with
      | none => rw [hrec] at h; cases h
      | some p =>
        obtain ⟨cs2, r2⟩ := p
        rw [hrec] at h
        have h1 := Option.some.inj h
        have hcs : cs' = a :: cs2 := (congrArg Prod.fst h1).symm
        have hr : r = r2 := (congrArg Prod.snd h1).symm
        rw [hcs, hr]
        have := ih b cs2 r2 hrec
        simp only [sumLedgers, List.map_cons, List.sum_cons] at *
        omega

theorem counter_step (cs inact : List CrawlerSt) (num k i : Nat)
    (hlt : i < cs.length) (c' : CrawlerSt)
    (hgrow : c'.recipe_json.length = (cs.get ⟨i, hlt⟩).recipe_json.length + k)
    (hok : num = sumLedgers cs + sumLedgers inact) :
    num + k = sumLedgers (cs.set i c') + sumLedgers inact := by
  have hset := sumLedgers_set cs i c' hlt
  omega

theorem counter_retire (cs inact : List CrawlerSt) (num i : Nat) (b : String)
    (hlt : i < cs.length) (c' : CrawlerSt) (cs' : List CrawlerSt) (r : CrawlerSt)
    (hgrow : c'.recipe_json.length = (cs.get ⟨i, hlt⟩).recipe_json.length)
    (hrem : remove_crawler (cs.set i c') b = some (cs', r))
    (hok : num = sumLedgers cs + sumLedgers inact) :
    num = sumLedgers cs' + sumLedgers (inact ++ [r]) := by
  have h1 := remove_crawler_sum _ _ _ _ hrem
  have h2 := sumLedgers_set cs i c' hlt
  rw [sumLedgers_append]
  simp only [sumLedgers, List.map_cons, List.map_nil, List.sum_cons, List.sum_nil] at *
  omega

/-- Claim C8: the scheduler's counter invariant.  If the global counter
equals the sum of the ledger lengths over all crawlers (active and
retired) before a loop iteration, it still does after: a normal crawl
return adds exactly the new ledger entries to the counter, and retiring a
crawler moves its ledger to the retired side without touching the
counter.  The invariant therefore holds after every loop iteration of a
`run` that started in a state satisfying it. -/
theorem c8_counter_invariant :
    (∀ (env : Env) (st st' : MCState),
      runBody env st = Except.ok st' → CounterOk st → CounterOk st') ∧
    (∀ (env : Env) (fuel : Nat) (st st' : MCState),
      runAux env fuel st = some (Except.ok st') → CounterOk st → CounterOk st') := by
  have hbody : ∀ (env : Env) (st st' : MCState),
      runBody env st = Except.ok st' → CounterOk st → CounterOk st' := by
    intro env st st' h hok
    unfold runBody at h
    split_ifs at h with hne
    dsimp only at h
    have hgrow := crawl_ledger env (env.rands st.steps)
      (st.crawlers.get ⟨st.cyclePos % st.crawlers.length,
        Nat.mod_lt _ (List.length_pos.mpr hne)⟩)
    split at h
    · rename_i k hk
      rw [hk] at hgrow
      cases h
      unfold CounterOk at hok ⊢
      dsimp only
      exact counter_step st.crawlers st.inactive_crawler st.num_recipes k
        (st.cyclePos % st.crawlers.length)
        (Nat.mod_lt _ (List.length_pos.mpr hne)) _ (by simpa using hgrow.1) hok
    · rename_i hk
      split at h
      · rename_i p cs' r hrem
        cases h
        unfold CounterOk at hok ⊢
        dsimp only
        rw [hk] at hgrow
        exact counter_retire st.crawlers st.inactive_crawler st.num_recipes
          (st.cyclePos % st.crawlers.length) _
          (Nat.mod_lt _ (List.length_pos.mpr hne)) _ cs' r
          (by simpa using hgrow.1) hrem hok
      · cases h
    · cases h
  refine ⟨hbody, ?_⟩
  intro env fuel
  induction fuel with
  | zero => intro st st' h hok; cases h
  | succ n ih =>
    intro st st' h hok
    unfold runAux at h
    split_ifs at h with hcond
    · cases hb : runBody env st with
      | ok st1 =>
        rw [hb] at h
        exact ih st1 st' h (hbody env st st1 hb hok)
      | error e => rw [hb] at h; cases h
    · cases h
      exact hok

/-- Witness for C8: the first tick of the two-site run takes the
registered state (counter 0, all ledgers empty) to the state in which
site `a.com` holds one recipe and the counter is 1; the invariant holds
there. -/
theorem c8_witness :
    CounterOk
      { recipe_limit := 2
        num_recipes := 1
        crawlers := [⟨"http://a.com/", "", "", [], [], [recA], ["http://a.com/"]⟩,
          crawlerB]
        inactive_crawler := []
        cyclePos := 1
        steps := 1 } :=
  c8_counter_invariant.1 envTwoSites stTwoSites _ (by rfl) (by rfl)

/-- `remove_crawler` fails exactly when no active crawler carries the
requested base URL. -/
theorem remove_crawler_none_iff :
    ∀ (cs : List CrawlerSt) (b : String),
      remove_crawler cs b = none ↔ ∀ c ∈ cs, c.base_url ≠ b := by
  intro cs b
  induction cs with
  | nil => simp [remove_crawler]
  | cons a rest ih =>
    unfold remove_crawler
    split_ifs with hb
    · simp [hb]
    · cases hrec : remove_crawler rest b with
      | none =>
        rw [hrec] at ih
        simp only [true_iff] at ih
        constructor
        · intro _ c hc
          rcases List.mem_cons.mp hc with rfl | hc2
          · exact hb
          · exact ih c hc2
        · intro _; rfl
      | some p =>
        obtain ⟨cs2, r2⟩ := p
        rw [hrec] at ih
        constructor
        · intro habs; cases habs
        · intro hall
          exact absurd (fun c hc => hall c (List.mem_cons_of_mem a hc))
            (fun hall2 => by simpa using ih.mpr hall2)

/-- With pairwise-distinct base URLs, `remove_crawler` keyed by the
base URL of the crawler at position `i` removes exactly that crawler. -/
theorem remove_crawler_first_match :
    ∀ (cs : List CrawlerSt) (i : Nat) (h : i < cs.length),
      (cs.map (fun c => c.base_url)).Nodup →
      remove_crawler cs (cs.get ⟨i, h⟩).base_url =
        some (cs.eraseIdx i, cs.get ⟨i, h⟩) := by
  intro cs
  induction cs with
  | nil => intro i h; simp at h
  | cons a rest ih =>
    intro i h hnd
    simp only [List.map_cons, List.nodup_cons] at hnd
    cases i with
    | zero =>
      simp [remove_crawler, List.eraseIdx]
    | succ j =>
      have hj : j < rest.length := by simpa using Nat.lt_of_succ_lt_succ h
      have hget : (a :: rest).get ⟨j + 1, h⟩ = rest.get ⟨j, hj⟩ := rfl
      have hne : a.base_url ≠ (rest.get ⟨j, hj⟩).base_url := by
        intro he
        exact hnd.1 (he ▸ List.mem_map_of_mem (fun c => c.base_url)
          (List.get_mem rest j hj))
      rw [hget]
      unfold remove_crawler
      rw [if_neg hne, ih j hj hnd.2]
      simp [List.eraseIdx]

theorem mem_set_self :
    ∀ (cs : List CrawlerSt) (i : Nat) (c' : CrawlerSt), i < cs.length →
      c' ∈ cs.set i c' := by
  intro cs
  induction cs with
  | nil => intro i c' h; simp at h
  | cons a rest ih =>
    intro i c' h
    cases i with
    | zero => simp [List.set]
    | succ j =>
      simp only [List.set, List.mem_cons]
      exact Or.inr (ih j c' (by simpa using Nat.lt_of_succ_lt_succ h))

/-- The `RuntimeError("Fatal error removing crawler.")` branch is
unreachable: the exhausted crawler is itself in the rotation, so the
search by its base URL always finds a crawler to retire. -/
theorem runBody_no_fatal (env : Env) (st : MCState) :
    runBody env st ≠ Except.error RunErr.fatalRemove := by
  unfold runBody
  split_ifs with hne
  · simp
  · dsimp only
    split
    · simp
    · split
      · simp
      · rename_i hrem
        have hmem := mem_set_self st.crawlers (st.cyclePos % st.crawlers.length)
          (crawl env (env.rands st.steps)
            (st.crawlers.get ⟨st.cyclePos % st.crawlers.length,
              Nat.mod_lt _ (List.length_pos.mpr hne)⟩)).1
          (Nat.mod_lt _ (List.length_pos.mpr hne))
        exact absurd rfl ((remove_crawler_none_iff _ _).mp hrem _ hmem)
    · simp

/-- Claim C10: crawler retirement is keyed by base URL.  Removal fails
exactly when no active crawler has the requested base URL; with
pairwise-distinct base URLs the crawler removed is exactly the exhausted
one; the fatal removal branch of `run` is unreachable; and with two
crawlers registered under one base URL, retiring the second (exhausted)
one removes the first-registered crawler instead, leaving the exhausted
one in the rotation. -/
theorem c10_retirement_by_base_url :
    (∀ (cs : List CrawlerSt) (b : String),
      remove_crawler cs b = none ↔ ∀ c ∈ cs, c.base_url ≠ b) ∧
    (∀ (cs : List CrawlerSt) (i : Nat) (h : i < cs.length),
      (cs.map (fun c => c.base_url)).Nodup →
      remove_crawler cs (cs.get ⟨i, h⟩).base_url =
        some (cs.eraseIdx i, cs.get ⟨i, h⟩)) ∧
    (∀ (env : Env) (st : MCState), runBody env st ≠ Except.error RunErr.fatalRemove) ∧
    (dupCrawlerOne.base_url = dupCrawlerTwo.base_url ∧
      remove_crawler [dupCrawlerOne, dupCrawlerTwo] dupCrawlerTwo.base_url =
        some ([dupCrawlerTwo], dupCrawlerOne) ∧
      dupCrawlerOne ≠ dupCrawlerTwo) :=
  ⟨remove_crawler_none_iff, remove_crawler_first_match, runBody_no_fatal,
    by decide, by decide, by decide⟩

/-- Witness for C10: with the two distinct-base crawlers of the two-site
run, removal keyed by the base URL of the crawler at position 1 retires
exactly that crawler. -/
theorem c10_witness :
    remove_crawler [crawlerA, crawlerB]
        (([crawlerA, crawlerB].get ⟨1, by decide⟩).base_url) =
      some ([crawlerA, crawlerB].eraseIdx 1, [crawlerA, crawlerB].get ⟨1, by decide⟩) :=
  c10_retirement_by_base_url.2.1 [crawlerA, crawlerB] 1 (by decide) (by decide)

theorem foldl_append_ledgers :
    ∀ (cs : List CrawlerSt) (acc : List Recipe),
      cs.foldl (fun ret c => ret ++ c.recipe_json) acc =
        acc ++ (cs.map (fun c => c.recipe_json)).flatten := by
  intro cs
  induction cs with
  | nil => intro acc; simp
  | cons a rest ih =>
    intro acc
    simp only [List.foldl_cons, List.map_cons, List.flatten_cons, ih, List.append_assoc]

/-- `results_dict` is the in-order concatenation of the ledgers of the
crawlers in the active list — and of those only. -/
theorem results_dict_eq_flatten (st : MCState) :
    results_dict st = (st.crawlers.map (fun c => c.recipe_json)).flatten := by
  unfold results_dict
  rw [foldl_append_ledgers]
  simp

theorem mapBase_set_eq :
    ∀ (cs : List CrawlerSt) (i : Nat) (c' : CrawlerSt) (h : i < cs.length),
      c'.base_url = (cs.get ⟨i, h⟩).base_url →
      (cs.set i c').map (fun c => c.base_url) = cs.map (fun c => c.base_url) := by
  intro cs
  induction cs with
  | nil => intro i c' h; simp at h
  | cons a rest ih =>
    intro i c' h heq
    cases i with
    | zero => simp only [List.set, List.map_cons]; rw [heq]; rfl
    | succ j =>
      simp only [List.set, List.map_cons]
      rw [ih j c' (by simpa using Nat.lt_of_succ_lt_succ h) heq]

theorem remove_crawler_sublist :
    ∀ (cs : List CrawlerSt) (b : String) (cs' : List CrawlerSt) (r : CrawlerSt),
      remove_crawler cs b = some (cs', r) → List.Sublist cs' cs := by
  intro cs
  induction cs with
  | nil => intro b cs' r h; simp [remove_crawler] at h
  | cons a rest ih =>
    intro b cs' r h
    unfold remove_crawler at h
    split_ifs at h with hb
    · cases h
      exact List.sublist_cons_self a rest
    · cases hrec : remove_crawler rest b with
      | none => rw [hrec] at h; cases h
      | some p =>
        obtain ⟨cs2, r2⟩ := p
        rw [hrec] at h
        have h1 := Option.some.inj h
        have hcs : cs' = a :: cs2 := (congrArg Prod.fst h1).symm
        rw [hcs]
        exact List.Sublist.cons₂ a (ih b cs2 r2 hrec)

/-- One loop iteration never reorders the active rotation: it leaves the
base-URL sequence unchanged (normal crawl) or deletes one entry
(retirement). -/
theorem runBody_rotation (env : Env) (st st' : MCState)
    (h : runBody env st = Except.ok st') :
    List.Sublist (st'.crawlers.map (fun c => c.base_url))
      (st.crawlers.map (fun c => c.base_url)) := by
  unfold runBody at h
  split_ifs at h with hne
  dsimp only at h
  have hbase := (crawl_ledger env (env.rands st.steps)
    (st.crawlers.get ⟨st.cyclePos % st.crawlers.length,
      Nat.mod_lt _ (List.length_pos.mpr hne)⟩)).2
  split at h
  · cases h
    dsimp only
    rw [mapBase_set_eq st.crawlers (st.cyclePos % st.crawlers.length) _
      (Nat.mod_lt _ (List.length_pos.mpr hne)) hbase]
  · split at h
    · rename_i p cs' r hrem
      cases h
      dsimp only
      have hs := List.Sublist.map (fun c => c.base_url)
        (remove_crawler_sublist _ _ _ _ hrem)
      rw [mapBase_set_eq st.crawlers (st.cyclePos % st.crawlers.length) _
        (Nat.mod_lt _ (List.length_pos.mpr hne)) hbase] at hs
      exact hs
    · cases h
  · cases h

/-- Claim C2, amended: the results accessor concatenates the ledgers of
the crawlers still in the active rotation — retired crawlers' ledgers are
not included — keeping registration order across the run (the base-URL
sequence of the active rotation after a completed `run` is a subsequence
of the registered one) and per-site insertion order (each ledger is
emitted as stored, in full). -/
theorem c2_results_active_only :
    (∀ st : MCState,
      results_dict st = (st.crawlers.map (fun c => c.recipe_json)).flatten) ∧
    (∀ (env : Env) (fuel : Nat) (st st' : MCState),
      runAux env fuel st = some (Except.ok st') →
      List.Sublist (st'.crawlers.map (fun c => c.base_url))
        (st.crawlers.map (fun c => c.base_url))) := by
  refine ⟨results_dict_eq_flatten, ?_⟩
  intro env fuel
  induction fuel with
  | zero => intro st st' h; cases h
  | succ n ih =>
    intro st st' h
    unfold runAux at h
    split_ifs at h with hcond
    · cases hb : runBody env st with
      | ok st1 =>
        rw [hb] at h
        exact (ih st1 st' h).trans (runBody_rotation env st st1 hb)
      | error e => rw [hb] at h; cases h
    · cases h
      exact List.Sublist.refl _

/-- Witness for C2's amended theorem: the completed two-site run leaves
only `b.com` active, and its base-URL sequence is a subsequence of the
registered one. -/
theorem c2_witness :
    List.Sublist
      (({ recipe_limit := 2
          num_recipes := 2
          crawlers := [⟨"http://b.com/", "", "", [], [], [recB],
            ["http://b.com/", "http://b.com/p2"]⟩]
          inactive_crawler := [⟨"http://a.com/", "", "", [], [], [recA], ["http://a.com/"]⟩]
          cyclePos := 1
          steps := 4 } : MCState).crawlers.map (fun c => c.base_url))
      (stTwoSites.crawlers.map (fun c => c.base_url)) :=
  c2_results_active_only.2 envTwoSites 10 stTwoSites _ (by rfl)

theorem rank_one_inv (env : Env) (st : CrawlerSt) (href : Option String) (u : String)
    (h : rank_url env st href = (1, some u)) :
    u ∉ st.been_there_urls ∧ stemHit st.recipe_url u := by
  unfold rank_url rankResolved at h
  cases href with
  | none => simp at h
  | some url =>
    dsimp only at h
    split_ifs at h <;> simp_all [stemHit]

theorem rank_zero_inv (env : Env) (st : CrawlerSt) (href : Option String) (u : String)
    (h : rank_url env st href = (0, some u)) :
    u ∉ st.been_there_urls ∧ ¬ stemHit st.recipe_url u := by
  unfold rank_url rankResolved at h
  cases href with
  | none => simp at h
  | some url =>
    dsimp only at h
    split_ifs at h <;> simp_all [stemHit]

theorem getLast_not_mem_dropLast (l : List String) (h : l ≠ []) (hnd : l.Nodup) :
    l.getLast h ∉ l.dropLast := by
  intro hmem
  have heq := List.dropLast_append_getLast h
  rw [← heq] at hnd
  rcases List.nodup_append.mp hnd with ⟨-, -, hdisj⟩
  exact hdisj hmem (List.mem_singleton_self _)

theorem get_not_mem_eraseIdx :
    ∀ (l : List String) (i : Nat) (h : i < l.length), l.Nodup →
      l.get ⟨i, h⟩ ∉ l.eraseIdx i := by
  intro l
  induction l with
  | nil => intro i h; simp at h
  | cons a rest ih =>
    intro i h hnd
    rcases List.nodup_cons.mp hnd with ⟨ha, hrest⟩
    cases i with
    | zero => simpa [List.eraseIdx] using ha
    | succ j =>
      have hj : j < rest.length := by simpa using Nat.lt_of_succ_lt_succ h
      simp only [List.eraseIdx, List.get, List.mem_cons]
      rintro (heq | hmem)
      · exact ha (heq ▸ List.get_mem rest j hj)
      · exact ih j hj hrest hmem



theorem pickUrl_spec (rand : Nat → Nat) :
    ∀ (fuel k : Nat) (high low : List String),
      high.Nodup → low.Nodup → (∀ u ∈ high, u ∉ low) →
      List.Sublist (pickUrl rand fuel k high low).1 high ∧
      List.Sublist (pickUrl rand fuel k high low).2.1 low ∧
      (∀ u, (pickUrl rand fuel k high low).2.2 = some u →
        u ∉ (pickUrl rand fuel k high low).1 ∧
        u ∉ (pickUrl rand fuel k high low).2.1 ∧
        List.Sublist (pickUrl rand fuel k high low).1 high.dropLast) := by
  intro fuel
  induction fuel with
  | zero =>
    intro k high low hh hl hd
    refine ⟨List.Sublist.refl _, List.Sublist.refl _, ?_⟩
    intro u hu
    simp [pickUrl] at hu
  | succ n ih =>
    intro k high low hh hl hd
    by_cases hhe : high = []
    · by_cases hle : low = []
      · subst hhe; subst hle
        simp only [pickUrl, dite_true]
        exact ⟨List.Sublist.refl _, List.Sublist.refl _, by intro u hu; cases hu⟩
      · have hr : rand k % low.length < low.length :=
          Nat.mod_lt _ (List.length_pos.mpr hle)
        by_cases hemp : low.get ⟨rand k % low.length, hr⟩ = ""
        · have hstep : pickUrl rand (n + 1) k high low =
              pickUrl rand n (k + 1) high (low.eraseIdx (rand k % low.length)) := by
            simp only [pickUrl, dif_pos hhe, dif_neg hle, if_pos hemp]
          have hrec := ih (k + 1) high (low.eraseIdx (rand k % low.length)) hh
            (hl.sublist (List.eraseIdx_sublist low (rand k % low.length)))
            (fun u hu hmem => hd u hu
              ((List.eraseIdx_sublist low (rand k % low.length)).subset hmem))
          rw [hstep]
          refine ⟨hrec.1, hrec.2.1.trans (List.eraseIdx_sublist _ _), ?_⟩
          intro u hu
          exact ⟨(hrec.2.2 u hu).1, (hrec.2.2 u hu).2.1, (hrec.2.2 u hu).2.2⟩
        · have hstep : pickUrl rand (n + 1) k high low =
              (high, low.eraseIdx (rand k % low.length),
                some (low.get ⟨rand k % low.length, hr⟩)) := by
            simp only [pickUrl, dif_pos hhe, dif_neg hle, if_neg hemp]
          rw [hstep]
          refine ⟨List.Sublist.refl _, List.eraseIdx_sublist _ _, ?_⟩
          intro u hu
          have hu2 := Option.some.inj hu
          subst hhe
          refine ⟨by simp, ?_, by simp⟩
          rw [← hu2]
          exact get_not_mem_eraseIdx low _ hr hl
    · have hne := hhe
      by_cases hemp : high.getLast hhe = ""
      · have hstep : pickUrl rand (n + 1) k high low =
            pickUrl rand n k high.dropLast low := by
          simp only [pickUrl, dif_neg hhe, if_pos hemp]
        have hrec := ih k high.dropLast low (hh.sublist (List.dropLast_sublist high)) hl
          (fun u hu => hd u ((List.dropLast_sublist high).subset hu))
        rw [hstep]
        refine ⟨hrec.1.trans (List.dropLast_sublist _), hrec.2.1, ?_⟩
        intro u hu
        refine ⟨(hrec.2.2 u hu).1, (hrec.2.2 u hu).2.1, ?_⟩
        exact (hrec.2.2 u hu).2.2.trans (List.dropLast_sublist _)
      · have hstep : pickUrl rand (n + 1) k high low =
            (high.dropLast, low, some (high.getLast hhe)) := by
          simp only [pickUrl, dif_neg hhe, if_neg hemp]
        rw [hstep]
        refine ⟨List.dropLast_sublist _, List.Sublist.refl _, ?_⟩
        intro u hu
        have hu2 := Option.some.inj hu
        rw [← hu2]
        exact ⟨getLast_not_mem_dropLast high hhe hh,
          hd _ (List.getLast_mem hhe), List.Sublist.refl _⟩



theorem mineOne_inv (env : Env) (ru : String) (st : CrawlerSt) (href : Option String)
    (hru : st.recipe_url = ru)
    (hok : FrontierOk st)
    (hlow : ∀ u ∈ st.url_list_low, ¬ stemHit ru u)
    (hhigh : ∀ u ∈ st.url_list_high, stemHit ru u) :
    FrontierOk (mineOne env st href) ∧
    (∀ u ∈ (mineOne env st href).url_list_low, ¬ stemHit ru u) ∧
    (∀ u ∈ (mineOne env st href).url_list_high, stemHit ru u) := by
  obtain ⟨hndh, hndl, hdisj, hfh, hfl⟩ := hok
  unfold mineOne
  cases hr : rank_url env st href with
  | mk score o =>
    cases o with
    | none => exact ⟨⟨hndh, hndl, hdisj, hfh, hfl⟩, hlow, hhigh⟩
    | some u =>
      dsimp only
      split_ifs with h1 hmem h0 hmem2
      · -- score 1, URL already in the high tier: state unchanged
        exact ⟨⟨hndh, hndl, hdisj, hfh, hfl⟩, hlow, hhigh⟩
      · -- score 1, URL appended to the high tier
        subst h1
        obtain ⟨hfresh, hstem⟩ := rank_one_inv env st href u hr
        rw [hru] at hstem
        have hunotlow : u ∉ st.url_list_low := fun hc => hlow u hc hstem
        refine ⟨⟨?_, hndl, ?_, ?_, hfl⟩, hlow, ?_⟩
        · simp only [List.nodup_append, List.nodup_cons, List.not_mem_nil,
            not_false_iff, List.nodup_nil, and_true, true_and]
          exact ⟨hndh, fun v hv => by
            simp only [List.mem_singleton]
            intro he; exact hmem (he ▸ hv)⟩
        · intro v hv
          rcases List.mem_append.mp hv with hv1 | hv2
          · exact hdisj v hv1
          · rw [List.mem_singleton.mp hv2]; exact hunotlow
        · intro v hv
          rcases List.mem_append.mp hv with hv1 | hv2
          · exact hfh v hv1
          · rw [List.mem_singleton.mp hv2]; exact hfresh
        · intro v hv
          rcases List.mem_append.mp hv with hv1 | hv2
          · exact hhigh v hv1
          · rw [List.mem_singleton.mp hv2]; exact hstem
      · -- score 0, URL already in the low tier: state unchanged
        exact ⟨⟨hndh, hndl, hdisj, hfh, hfl⟩, hlow, hhigh⟩
      · -- score 0, URL appended to the low tier
        subst h0
        obtain ⟨hfresh, hnostem⟩ := rank_zero_inv env st href u hr
        rw [hru] at hnostem
        refine ⟨⟨hndh, ?_, ?_, hfh, ?_⟩, ?_, hhigh⟩
        · simp only [List.nodup_append, List.nodup_cons, List.not_mem_nil,
            not_false_iff, List.nodup_nil, and_true, true_and]
          exact ⟨hndl, fun v hv => by
            simp only [List.mem_singleton]
            intro he; exact hmem2 (he ▸ hv)⟩
        · intro v hv hc
          rcases List.mem_append.mp hc with hc1 | hc2
          · exact hdisj v hv hc1
          · exact hnostem ((List.mem_singleton.mp hc2) ▸ hhigh v hv)
        · intro v hv
          rcases List.mem_append.mp hv with hv1 | hv2
          · exact hfl v hv1
          · rw [List.mem_singleton.mp hv2]; exact hfresh
        · intro v hv
          rcases List.mem_append.mp hv with hv1 | hv2
          · exact hlow v hv1
          · rw [List.mem_singleton.mp hv2]; exact hnostem
      · -- negative score: state unchanged
        exact ⟨⟨hndh, hndl, hdisj, hfh, hfl⟩, hlow, hhigh⟩

theorem mine_inv (env : Env) (ru : String) :
    ∀ (anchors : List (Option String)) (st : CrawlerSt),
      st.recipe_url = ru → FrontierOk st →
      (∀ u ∈ st.url_list_low, ¬ stemHit ru u) →
      (∀ u ∈ st.url_list_high, stemHit ru u) →
      FrontierOk (mine_anchors env st anchors) ∧
      (∀ u ∈ (mine_anchors env st anchors).url_list_low, ¬ stemHit ru u) ∧
      (∀ u ∈ (mine_anchors env st anchors).url_list_high, stemHit ru u) := by
  intro anchors
  induction anchors with
  | nil =>
    intro st hru hok hlow hhigh
    simpa [mine_anchors] using (⟨hok, hlow, hhigh⟩ :
      FrontierOk st ∧ (∀ u ∈ st.url_list_low, ¬ stemHit ru u) ∧
        (∀ u ∈ st.url_list_high, stemHit ru u))
  | cons a rest ih =>
    intro st hru hok hlow hhigh
    have h1 := mineOne_inv env ru st a hru hok hlow hhigh
    have hru1 : (mineOne env st a).recipe_url = ru :=
      ((mineOne_immutable env st a).2.1).trans hru
    have h2 := ih (mineOne env st a) hru1 h1.1 h1.2.1 h1.2.2
    simpa [mine_anchors] using h2



theorem dropLast_nil_of_le_one (l : List String) (h : l.length ≤ 1) : l.dropLast = [] := by
  cases l with
  | nil => rfl
  | cons a rest =>
    cases rest with
    | nil => rfl
    | cons b r2 => simp at h

theorem download_inv (env : Env) (rand : Nat → Nat) (st : CrawlerSt)
    (hinv : FrontierInv st) :
    FrontierInv (download_page env rand st).1 ∧
    ((download_page env rand st).2 ≠ none →
      ∀ v ∈ (download_page env rand st).1.url_list_high, stemHit st.recipe_url v) := by
  obtain ⟨⟨hndh, hndl, hdisj, hfh, hfl⟩, hlow, hhigh⟩ := hinv
  have spec := pickUrl_spec rand (st.url_list_high.length + st.url_list_low.length + 1) 0
    st.url_list_high st.url_list_low hndh hndl hdisj
  unfold download_page
  cases hp : pickUrl rand (st.url_list_high.length + st.url_list_low.length + 1) 0
      st.url_list_high st.url_list_low with
  | mk h' rest =>
    obtain ⟨l', opt⟩ := rest
    rw [hp] at spec
    dsimp only at spec
    obtain ⟨hsh, hsl, hsome⟩ := spec
    cases opt with
    | none =>
      dsimp only
      refine ⟨⟨⟨hndh.sublist hsh, hndl.sublist hsl, ?_, ?_, ?_⟩, ?_, ?_⟩, ?_⟩
      · intro v hv hc
        exact hdisj v (hsh.subset hv) (hsl.subset hc)
      · intro v hv
        exact hfh v (hsh.subset hv)
      · intro v hv
        exact hfl v (hsl.subset hv)
      · intro v hv
        exact hlow v (hsl.subset hv)
      · rcases hhigh with hall | hseed
        · exact Or.inl (fun v hv => hall v (hsh.subset hv))
        · exact Or.inr ⟨hseed.1, le_trans hsh.length_le hseed.2⟩
      · intro hne
        exact absurd rfl hne
    | some u =>
      obtain ⟨hmemh, hmeml, hsd⟩ := hsome u rfl
      have hallstem : ∀ v ∈ h', stemHit st.recipe_url v := by
        rcases hhigh with hall | hseed
        · intro v hv
          exact hall v (hsh.subset hv)
        · rw [dropLast_nil_of_le_one _ hseed.2] at hsd
          intro v hv
          rw [List.sublist_nil.mp hsd] at hv
          cases hv
      dsimp only
      refine ⟨⟨⟨hndh.sublist hsh, hndl.sublist hsl, ?_, ?_, ?_⟩, ?_, Or.inl ?_⟩, ?_⟩
      · intro v hv hc
        exact hdisj v (hsh.subset hv) (hsl.subset hc)
      · intro v hv hc
        rcases List.mem_append.mp hc with hc1 | hc2
        · exact hfh v (hsh.subset hv) hc1
        · rw [List.mem_singleton.mp hc2] at hv
          exact hmemh hv
      · intro v hv hc
        rcases List.mem_append.mp hc with hc1 | hc2
        · exact hfl v (hsl.subset hv) hc1
        · rw [List.mem_singleton.mp hc2] at hv
          exact hmeml hv
      · intro v hv
        exact hlow v (hsl.subset hv)
      · exact hallstem
      · intro _ v hv
        exact hallstem v hv

theorem FrontierInv_update_ledger (st : CrawlerSt) (rs : List Recipe)
    (h : FrontierInv st) : FrontierInv { st with recipe_json := rs } := by
  obtain ⟨⟨a, b, c, d, e⟩, f, g⟩ := h
  exact ⟨⟨a, b, c, d, e⟩, f, g⟩

/-- A full crawl step preserves the (strengthened) frontier invariant. -/
theorem crawl_FrontierInv (env : Env) (rand : Nat → Nat) (st : CrawlerSt)
    (hinv : FrontierInv st) : FrontierInv (crawl env rand st).1 := by
  have hdi := download_inv env rand st hinv
  have him := download_page_immutable env rand st
  unfold crawl
  cases hdp : download_page env rand st with
  | mk st1 o =>
    rw [hdp] at hdi him
    dsimp only at hdi him
    cases o with
    | none => exact hdi.1
    | some up =>
      obtain ⟨url, page⟩ := up
      have hstem : ∀ v ∈ st1.url_list_high, stemHit st.recipe_url v :=
        hdi.2 (by simp)
      have hru : st1.recipe_url = st.recipe_url := him.2.1
      obtain ⟨hok1, hlow1, hhigh1⟩ := hdi.1
      have hlow2 : ∀ u ∈ st1.url_list_low, ¬ stemHit st.recipe_url u := by
        intro u hu
        have := hlow1 u hu
        rwa [hitsRecipeStem, hru] at this
      have hm := mine_inv env st.recipe_url page.anchors st1 hru hok1 hlow2 hstem
      have hmru : (mine_anchors env st1 page.anchors).recipe_url = st.recipe_url :=
        ((mine_anchors_immutable env page.anchors st1).2.1).trans hru
      have hinv2 : FrontierInv (mine_anchors env st1 page.anchors) := by
        refine ⟨hm.1, ?_, Or.inl ?_⟩
        · intro u hu
          rw [hitsRecipeStem, hmru]
          exact hm.2.1 u hu
        · intro u hu
          rw [hitsRecipeStem, hmru]
          exact hm.2.2 u hu
      dsimp only
      split
      · exact hinv2
      · split_ifs
        · exact FrontierInv_update_ledger _ _ hinv2
        · exact hinv2
      · exact hinv2

/-- A freshly constructed crawler satisfies the frontier invariant. -/
theorem init_FrontierInv (url : String) (recipe_url license : Option String)
    (start_url : String) :
    FrontierInv (Crawler.init url recipe_url license start_url) := by
  refine ⟨⟨?_, ?_, ?_, ?_, ?_⟩, ?_, Or.inr ⟨rfl, ?_⟩⟩ <;> simp [Crawler.init]

/-- Claim C5: on every crawler state the program can reach — the freshly
constructed state and anything obtained from it by crawl steps — the
frontier invariant holds: no URL sits in both tiers, no URL occurs twice
in one tier, and no visited URL is in either tier. -/
theorem c5_frontier_invariant (env : Env) (st : CrawlerSt)
    (h : ReachableCrawler env st) : FrontierOk st := by
  have hinv : FrontierInv st := by
    induction h with
    | init url ru lic su => exact init_FrontierInv url ru lic su
    | step st0 rand hr ih => exact crawl_FrontierInv env rand st0 ih
  exact hinv.1

/-- Witness for C5: the invariant at the freshly registered
`www.example.com` crawler. -/
theorem c5_witness : FrontierOk exampleCrawler :=
  c5_frontier_invariant envTwoSites exampleCrawler
    (ReachableCrawler.init "https://www.example.com/" none none "")

end RecipeCrawler
